import Mathlib

/-!
Verification of the libudaemon runtime core (udaemon.c, ud_utils.c) via a
shallow embedding.  Data tables are modelled as Lean lists of slot records,
machine integers as Nat/Int (with explicit truncation where the C code
casts), the C clock as an explicit `now : Int` parameter, and callback
pointers as `Option Nat` values (a callback identifier, `none` = NULL).
Callback invocation is modelled by an oracle function giving the return
value of each invoked callback.
-/

namespace Udaemon

/-- Capacity of the event-handler (pollfd) table, `FD_MAX` in udaemon.c. -/
def FD_MAX : Nat := 5

/-- Capacity of the task table, `TASK_MAX` in udaemon.c. -/
def TASK_MAX : Nat := 10

/-- The designated invalid event-handler id, `(uint8_t)(-1)` in udaemon.h. -/
def UD_INVALID_ID : Nat := 255

/-- Linux errno value EINVAL. -/
def EINVAL : Int := 22

/-- Linux errno value ENOMEM. -/
def ENOMEM : Int := 12

/-- Logical signal code SIG_TERM from udaemon.h. -/
def SIG_TERM : Nat := 1

/-- Logical signal code SIG_HUP from udaemon.h. -/
def SIG_HUP : Nat := 2

/-- Logical signal code SIG_USR1 from udaemon.h. -/
def SIG_USR1 : Nat := 3

/-- Logical signal code SIG_USR2 from udaemon.h. -/
def SIG_USR2 : Nat := 4

/-- One entry of `struct pollfd` as used by udaemon.c: the registered file
descriptor (negative = free slot) and the event masks. -/
structure Pollfd where
  fd : Int
  events : Int
  revents : Int
deriving DecidableEq, Repr

/-- One entry of the event-handler table (`ud_ehdef_t`): the callback
pointer and the opaque context pointer. -/
structure EhDef where
  callback : Option Nat
  context : Option Nat
deriving DecidableEq, Repr

/-- One entry of the task table (`ud_taskdef_t`): task callback pointer
(`none` = NULL = free slot), uint16 interval, time_t deadline and the
context pointer. -/
structure TaskDef where
  task : Option Nat
  interval : Nat
  next_deadline : Int
  context : Option Nat
deriving DecidableEq, Repr

/-- The modelled portion of `struct ud_state`: the running flag and the
three fixed-size tables (each a list of the corresponding capacity). -/
structure UdState where
  running : Bool
  pollfds : List Pollfd
  event_handlers : List EhDef
  task_queue : List TaskDef
deriving DecidableEq, Repr

/-- Index of the first list element satisfying `p` (the ascending
first-free-slot scan used by `ud_add_event_handler` / `ud_schedule_task`). -/
def firstIdx (p : α → Bool) : List α → Option Nat
  | [] => none
  | x :: xs => if p x then some 0 else (firstIdx p xs).map (fun j => j + 1)

/-- The state produced by `ud_init`: memset to zero, then every pollfd slot
fd set to -1 so poll ignores it. -/
def ud_init : UdState :=
  { running := false
  , pollfds := List.replicate FD_MAX { fd := -1, events := 0, revents := 0 }
  , event_handlers := List.replicate FD_MAX { callback := none, context := none }
  , task_queue :=
      List.replicate TASK_MAX { task := none, interval := 0, next_deadline := 0, context := none } }

/-- Embedding of `ud_valid_event_handler_id`: a plain upper-bound check
against FD_MAX (the eh_id_t argument is a uint8, modelled as a Nat below
256 in the theorems). -/
def ud_valid_event_handler_id (event_handler_id : Nat) : Bool :=
  decide (event_handler_id < FD_MAX)

/-- Embedding of `ud_add_event_handler` on a non-NULL state.  Returns the C
return value, the state after the call, and the slot index written through
the `event_handler_id` out-pointer (`none` when nothing was written).  The
C code rejects a NULL callback, scans `pollfds` for the first slot with a
negative fd, and claims it. -/
def ud_add_event_handler (st : UdState) (fd emask : Int)
    (callback : Option Nat) (context : Option Nat) : Int × UdState × Option Nat :=
  if callback = none then (-EINVAL, st, none)
  else
    match firstIdx (fun p => decide (p.fd < 0)) st.pollfds with
    | none => (-ENOMEM, st, none)
    | some idx =>
      ( 0
      , { st with
          pollfds := st.pollfds.set idx { fd := fd, events := emask, revents := 0 }
        , event_handlers := st.event_handlers.set idx { callback := callback, context := context } }
      , some idx )

/-- Embedding of `ud_remove_event_handler` on a non-NULL state.  The C code
checks only `event_handler_id == 0`; any other id is used directly to index
the tables.  For an id at or beyond FD_MAX the C code writes out of the
array bounds (undefined behavior); this embedding is only meaningful for
ids below the table length, where `List.set` mirrors the C writes. -/
def ud_remove_event_handler (st : UdState) (event_handler_id : Nat) : Int × UdState :=
  if event_handler_id = 0 then (-EINVAL, st)
  else
    ( 0
    , { st with
        pollfds := st.pollfds.set event_handler_id { fd := -1, events := 0, revents := 0 }
      , event_handlers := st.event_handlers.set event_handler_id { callback := none, context := none } } )

/-- Embedding of `ud_schedule_task` on a non-NULL state, with the current
time `time(NULL)` passed explicitly.  Scans for the first slot whose task
pointer is NULL and stores the new task there; note that the C code never
checks the `task` argument itself against NULL. -/
def ud_schedule_task (st : UdState) (now : Int) (interval : Nat)
    (task : Option Nat) (context : Option Nat) : Int × UdState :=
  match firstIdx (fun td => td.task.isNone) st.task_queue with
  | none => (-ENOMEM, st)
  | some idx =>
    ( 0
    , { st with
        task_queue := st.task_queue.set idx
          { task := task, interval := interval, next_deadline := now + (interval : Int)
          , context := context } } )

/-- Embedding of `ud_terminate` on a non-NULL state: clears the running
flag and reports success. -/
def ud_terminate (st : UdState) : Int × UdState :=
  (0, { st with running := false })

/-- The C condition under which `run_tasks` invokes a task slot:
`taskdef->task && taskdef->next_deadline < now`. -/
def dueTask (now : Int) (td : TaskDef) : Bool :=
  td.task.isSome && decide (td.next_deadline < now)

/-- The update `run_tasks` applies to an invoked slot at index `j`, given
the oracle `f` for the callback return values: a return value at or below
zero frees the slot, a positive return value is stored as the new interval
(cast to uint16_t in C, hence the mod 65536) and pushes the deadline to
`now + retval`. -/
def stepTd (f : Nat → TaskDef → Int) (now : Int) (j : Nat) (td : TaskDef) : TaskDef :=
  let r := f j td
  if r ≤ 0 then { td with task := none }
  else { td with interval := r.toNat % 65536, next_deadline := now + r }

/-- Worker for `run_tasks`: walks the task list in index order starting at
absolute index `k`, invoking every due slot.  Returns the updated list and
the indices invoked, in invocation order. -/
def run_tasks_aux (f : Nat → TaskDef → Int) (now : Int) :
    Nat → List TaskDef → List TaskDef × List Nat
  | _, [] => ([], [])
  | k, td :: rest =>
    let r := run_tasks_aux f now (k + 1) rest
    if dueTask now td then (stepTd f now k td :: r.1, k :: r.2)
    else (td :: r.1, r.2)

/-- Embedding of `run_tasks`: one task-run pass over the whole queue at
time `now`, with `f` giving each invoked callback's return value. -/
def run_tasks (f : Nat → TaskDef → Int) (now : Int) (q : List TaskDef) :
    List TaskDef × List Nat :=
  run_tasks_aux f now 0 q

/-- Trace actions of the internal signal dispatcher `main_signal_handler`:
rerunning the application configuration loader, forwarding a decoded signal
to the application's signal hook (or the logging default), and requesting
loop termination. -/
inductive SigAction where
  | reloadConfig : SigAction
  | forward : Nat → SigAction
  | terminate : SigAction
deriving DecidableEq, Repr

/-- Embedding of `main_signal_handler`: reads one signal byte (passed here
as `sigByte`), reloads the configuration on SIG_HUP, always forwards the
signal, and calls `ud_terminate` on SIG_TERM.  Returns the action trace in
program order together with the state after the call. -/
def main_signal_handler (st : UdState) (sigByte : Nat) : List SigAction × UdState :=
  let t1 : List SigAction := if sigByte = SIG_HUP then [SigAction.reloadConfig] else []
  let t2 := t1 ++ [SigAction.forward sigByte]
  if sigByte = SIG_TERM then (t2 ++ [SigAction.terminate], (ud_terminate st).2)
  else (t2, st)

/-- A task table with every slot occupied, used to exercise the capacity
paths. -/
def fullTaskState : UdState :=
  { ud_init with
    task_queue :=
      List.replicate TASK_MAX { task := some 1, interval := 1, next_deadline := 0, context := none } }

/-- A handler table with every slot occupied while the task table is still
free, used to exercise the handler capacity path on its own. -/
def fullFdState : UdState :=
  { ud_init with
    pollfds := List.replicate FD_MAX { fd := 9, events := 1, revents := 0 } }

/-- The state after the main loop registers the internal signal-pipe read
end (fd 3 here) as the first event handler on the fresh state. -/
def sigPipeState : UdState :=
  (ud_add_event_handler ud_init 3 1 (some 0) none).2.1

/-! Embedding of the identity resolver `ud_parse_uid` from ud_utils.c.  C
strings are modelled as `List Char`; the passwd and group databases are an
explicit environment of association lists. -/

/-- ASCII whitespace accepted by `strtol` (C locale `isspace`). -/
def isSpaceChar (c : Char) : Bool :=
  decide (c = ' ') || decide (c = '\t') || decide (c = '\n') || decide (c = '\r') ||
    decide (c = '\x0b') || decide (c = '\x0c')

/-- Decimal digit test used by the base-10 `strtol` parse. -/
def isDigitChar (c : Char) : Bool :=
  decide ('0' ≤ c) && decide (c ≤ '9')

/-- Numeric value of a decimal digit string (most significant first). -/
def natOfDigits (ds : List Char) : Nat :=
  ds.foldl (fun acc c => 10 * acc + (c.toNat - 48)) 0

/-- LONG_MAX on the 64-bit targets the code runs on. -/
def longMax : Int := 9223372036854775807

/-- LONG_MIN on the 64-bit targets the code runs on. -/
def longMin : Int := -9223372036854775808

/-- Embedding of `strtol(str, &ep, 10)`: skip leading whitespace, accept an
optional single sign, consume the maximal digit run, and clamp the value to
the long range.  Returns the value and the suffix starting at the end
pointer; when no digit is consumed the end pointer is the original string
and the value 0, as specified for strtol. -/
def strtol10 (s : List Char) : Int × List Char :=
  let t := s.dropWhile isSpaceChar
  let neg : Bool := decide (t.head? = some '-')
  let signed : Bool := neg || decide (t.head? = some '+')
  let t1 : List Char := if signed = true then t.tail else t
  let ds := t1.takeWhile isDigitChar
  let rest := t1.dropWhile isDigitChar
  if ds.isEmpty = true then (0, s)
  else
    let sv : Int := if neg = true then -((natOfDigits ds : Int)) else ((natOfDigits ds : Int))
    (if sv < longMin then longMin else if longMax < sv then longMax else sv, rest)

/-- Embedding of the static helper `strtonum` in ud_utils.c: the strtol
value when the whole string was consumed, -1 otherwise. -/
def strtonum (s : List Char) : Int :=
  let r := strtol10 s
  if r.2.isEmpty = true then r.1 else -1

/-- A character distinct from the separator colon. -/
def notColon (c : Char) : Bool :=
  !(decide (c = ':'))

/-- Embedding of the `strrchr(user, ':')` split in `ud_parse_uid`: cut the
entry at its LAST colon into the user part and an optional group part. -/
def splitLastColon (cs : List Char) : List Char × Option (List Char) :=
  let r := cs.reverse
  let grev := r.takeWhile notColon
  let rest := r.dropWhile notColon
  match rest with
  | [] => (cs, none)
  | _ :: urev => (urev.reverse, some grev.reverse)

/-- A passwd database entry: the uid and the primary gid. -/
structure PwEntry where
  pw_uid : Nat
  pw_gid : Nat
deriving DecidableEq, Repr

/-- The system's user/group databases, as queried through getpwnam,
getpwuid, getgrnam and getgrgid. -/
structure SysEnv where
  passwdByName : List (List Char × PwEntry)
  passwdByUid : List (Nat × PwEntry)
  groupByName : List (List Char × Nat)
  groupByGid : List (Nat × Nat)

/-- First association-list hit for a key. -/
def assocFind [DecidableEq α] (k : α) : List (α × β) → Option β
  | [] => none
  | kv :: rest => if kv.1 = k then some kv.2 else assocFind k rest

/-- Lookup a passwd entry by user name. -/
def getpwnam (env : SysEnv) (nm : List Char) : Option PwEntry :=
  assocFind nm env.passwdByName

/-- Lookup a passwd entry by uid. -/
def getpwuid (env : SysEnv) (u : Nat) : Option PwEntry :=
  assocFind u env.passwdByUid

/-- Lookup a group's gid by group name. -/
def getgrnam (env : SysEnv) (nm : List Char) : Option Nat :=
  assocFind nm env.groupByName

/-- Lookup a group's gid by gid. -/
def getgrgid (env : SysEnv) (g : Nat) : Option Nat :=
  assocFind g env.groupByGid

/-- Failure modes of `ud_parse_uid`; the C function returns 1 in each case
and distinguishes them only through the logged warning. -/
inductive ParseUidErr where
  | noNobody : ParseUidErr
  | noSuchUser : ParseUidErr
  | noSuchGroup : ParseUidErr
deriving DecidableEq, Repr

/-- The "nobody" account name. -/
def nobodyName : List Char :=
  ['n', 'o', 'b', 'o', 'd', 'y']

/-- The empty/absent-entry path of `ud_parse_uid`: resolve the "nobody"
account, failing if it does not exist. -/
def resolveNobody (env : SysEnv) : Except ParseUidErr (Nat × Nat) :=
  match getpwnam env nobodyName with
  | none => Except.error ParseUidErr.noNobody
  | some p => Except.ok (p.pw_uid, p.pw_gid)

/-- Embedding of `ud_parse_uid`: empty/absent entries resolve "nobody";
otherwise the entry is cut at the last colon, the user part is resolved by
uid when strtonum yields a non-negative value (masked to 32 bits by the C
cast) and by name otherwise, the gid defaults to the user's primary group,
and a present group part is resolved the same numeric-first way and
overrides the gid. -/
def ud_parse_uid (env : SysEnv) (entry : Option (List Char)) :
    Except ParseUidErr (Nat × Nat) :=
  match entry with
  | none => resolveNobody env
  | some e =>
    if e.isEmpty = true then resolveNobody env
    else
      let up := splitLastColon e
      let uval := strtonum up.1
      let pwd := if 0 ≤ uval then getpwuid env (uval.toNat % 4294967296)
                 else getpwnam env up.1
      match pwd with
      | none => Except.error ParseUidErr.noSuchUser
      | some p =>
        match up.2 with
        | none => Except.ok (p.pw_uid, p.pw_gid)
        | some g =>
          let gval := strtonum g
          let grp := if 0 ≤ gval then getgrgid env (gval.toNat % 4294967296)
                     else getgrnam env g
          match grp with
          | none => Except.error ParseUidErr.noSuchGroup
          | some gid => Except.ok (p.pw_uid, gid)

/-- The environment used by the identity-resolution witnesses: a "nobody"
account, the root account under uid 0 and the root group under gid 0. -/
def envEx : SysEnv :=
  { passwdByName := [(nobodyName, { pw_uid := 65534, pw_gid := 65534 })]
  , passwdByUid := [(0, { pw_uid := 0, pw_gid := 0 })]
  , groupByName := []
  , groupByGid := [(0, 0)] }

/-! Helper lemmas about the first-free-slot scan. -/

theorem firstIdx_eq_none (p : α → Bool) (l : List α)
    (h : ∀ x ∈ l, p x = false) : firstIdx p l = none := by
  induction l with
  | nil => rfl
  | cons a t ih =>
    have ha : p a = false := h a (List.mem_cons_self a t)
    simp [firstIdx, ha, ih (fun x hx => h x (List.mem_cons_of_mem a hx))]

theorem firstIdx_eq_some (p : α → Bool) (l : List α) (i : Nat) (x : α)
    (hget : l[i]? = some x) (hx : p x = true)
    (hbefore : ∀ j y, j < i → l[j]? = some y → p y = false) :
    firstIdx p l = some i := by
  induction l generalizing i with
  | nil => simp at hget
  | cons a t ih =>
    cases i with
    | zero =>
      simp at hget
      subst hget
      simp [firstIdx, hx]
    | succ j =>
      have ha : p a = false := hbefore 0 a (Nat.succ_pos j) (by simp)
      have ht : firstIdx p t = some j := by
        apply ih j
        · simpa using hget
        · intro j' y hj' hy
          exact hbefore (j' + 1) y (Nat.succ_lt_succ hj') (by simpa using hy)
      simp [firstIdx, ha, ht]

theorem firstIdx_cons_ne_zero (p : α → Bool) (a : α) (t : List α) (i : Nat)
    (ha : p a = false) (h : firstIdx p (a :: t) = some i) : i ≠ 0 := by
  simp [firstIdx, ha] at h
  obtain ⟨j, hj, hji⟩ := h
  omega

theorem firstIdx_mem (p : α → Bool) (l : List α) (i : Nat)
    (h : firstIdx p l = some i) : ∃ x, l[i]? = some x ∧ p x = true := by
  induction l generalizing i with
  | nil => simp [firstIdx] at h
  | cons a t ih =>
    by_cases ha : p a = true
    · simp [firstIdx, ha] at h
      subst h
      exact ⟨a, by simp, ha⟩
    · have ha' : p a = false := by
        cases hpa : p a
        · rfl
        · exact absurd hpa ha
      simp [firstIdx, ha'] at h
      obtain ⟨j, hj, hji⟩ := h
      obtain ⟨x, hx, hpx⟩ := ih j hj
      subst hji
      exact ⟨x, by simpa using hx, hpx⟩

/-! Helper lemmas about one task-run pass. -/

theorem run_tasks_aux_fst (f : Nat → TaskDef → Int) (now : Int) (q : List TaskDef) :
    ∀ k i, (run_tasks_aux f now k q).1[i]? =
      (q[i]?).map (fun td => if dueTask now td then stepTd f now (k + i) td else td) := by
  induction q with
  | nil => intro k i; simp [run_tasks_aux]
  | cons td rest ih =>
    intro k i
    cases i with
    | zero =>
      by_cases h : dueTask now td
      · simp [run_tasks_aux, h]
      · simp [run_tasks_aux, h]
    | succ j =>
      by_cases h : dueTask now td
      · simpa [run_tasks_aux, h, Nat.add_assoc, Nat.add_comm 1 j] using ih (k + 1) j
      · simpa [run_tasks_aux, h, Nat.add_assoc, Nat.add_comm 1 j] using ih (k + 1) j

theorem run_tasks_aux_mem (f : Nat → TaskDef → Int) (now : Int) (q : List TaskDef) :
    ∀ k j, j ∈ (run_tasks_aux f now k q).2 ↔
      ∃ i td, q[i]? = some td ∧ dueTask now td = true ∧ j = k + i := by
  induction q with
  | nil =>
    intro k j
    simp [run_tasks_aux]
  | cons td rest ih =>
    intro k j
    by_cases h : dueTask now td
    · simp only [run_tasks_aux, h, if_pos]
      constructor
      · intro hm
        rcases List.mem_cons.mp hm with hk | hm'
        · exact ⟨0, td, by simp, h, by omega⟩
        · obtain ⟨i, td', hget, hdue, hji⟩ := (ih (k + 1) j).mp hm'
          exact ⟨i + 1, td', by simpa using hget, hdue, by omega⟩
      · intro hex
        obtain ⟨i, td', hget, hdue, hji⟩ := hex
        cases i with
        | zero =>
          subst hji
          simp
        | succ i' =>
          apply List.mem_cons_of_mem
          exact (ih (k + 1) j).mpr ⟨i', td', by simpa using hget, hdue, by omega⟩
    · simp only [run_tasks_aux, h, if_neg, Bool.false_eq_true, not_false_iff]
      constructor
      · intro hm
        obtain ⟨i, td', hget, hdue, hji⟩ := (ih (k + 1) j).mp hm
        exact ⟨i + 1, td', by simpa using hget, hdue, by omega⟩
      · intro hex
        obtain ⟨i, td', hget, hdue, hji⟩ := hex
        cases i with
        | zero =>
          simp at hget
          subst hget
          exact absurd hdue (by simpa using h)
        | succ i' =>
          exact (ih (k + 1) j).mpr ⟨i', td', by simpa using hget, hdue, by omega⟩

theorem run_tasks_aux_lb (f : Nat → TaskDef → Int) (now : Int) (q : List TaskDef) :
    ∀ k j, j ∈ (run_tasks_aux f now k q).2 → k ≤ j := by
  intro k j hm
  obtain ⟨i, td, _, _, hji⟩ := (run_tasks_aux_mem f now q k j).mp hm
  omega

theorem run_tasks_aux_sorted (f : Nat → TaskDef → Int) (now : Int) (q : List TaskDef) :
    ∀ k, List.Pairwise (fun a b => a < b) (run_tasks_aux f now k q).2 := by
  induction q with
  | nil => intro k; simp [run_tasks_aux]
  | cons td rest ih =>
    intro k
    by_cases h : dueTask now td
    · simp only [run_tasks_aux, h, if_pos]
      refine List.Pairwise.cons ?_ (ih (k + 1))
      intro b hb
      have := run_tasks_aux_lb f now rest (k + 1) b hb
      omega
    · simp only [run_tasks_aux, h, if_neg, Bool.false_eq_true, not_false_iff]
      exact ih (k + 1)

theorem getElem?_set_self (l : List α) (i : Nat) (a x : α)
    (h : l[i]? = some x) : (l.set i a)[i]? = some a := by
  induction l generalizing i with
  | nil => simp at h
  | cons b t ih =>
    cases i with
    | zero => simp [List.set]
    | succ j =>
      simp only [List.set, List.getElem?_cons_succ]
      exact ih j (by simpa using h)

theorem set_self_of_getElem? (l : List α) (i : Nat) (a : α)
    (h : l[i]? = some a) : l.set i a = l := by
  induction l generalizing i with
  | nil => simp at h
  | cons b t ih =>
    cases i with
    | zero =>
      simp at h
      simp [List.set, h]
    | succ j =>
      simp only [List.set]
      rw [ih j (by simpa using h)]

theorem map_set_list (g : α → β) (l : List α) (i : Nat) (a : α) :
    (l.set i a).map g = (l.map g).set i (g a) := by
  induction l generalizing i with
  | nil => simp
  | cons b t ih =>
    cases i with
    | zero => simp [List.set]
    | succ j => simp [List.set, ih j]

/-- C10: `ud_valid_event_handler_id` accepts exactly the ids strictly below
FD_MAX (= 5): over the whole uint8 domain it is equivalent to `id < FD_MAX`,
it accepts handle 0 (the very handle that `ud_remove_event_handler`
rejects with -EINVAL), and it rejects UD_INVALID_ID (= 255). -/
theorem c10_valid_id :
    (∀ id : Nat, id < 256 → (ud_valid_event_handler_id id = true ↔ id < FD_MAX)) ∧
    ud_valid_event_handler_id 0 = true ∧
    ud_valid_event_handler_id UD_INVALID_ID = false ∧
    (∀ st : UdState, (ud_remove_event_handler st 0).1 = -EINVAL) := by
  refine ⟨?_, by decide, by decide, ?_⟩
  · intro id _
    simp [ud_valid_event_handler_id]
  · intro st
    simp [ud_remove_event_handler]

/-- C10 witness: the equivalence evaluated at the concrete id 3, and the
rejection of handle 0 applied at the concrete initial state. -/
theorem c10_valid_id_witness :
    (ud_valid_event_handler_id 3 = true ↔ 3 < FD_MAX) ∧
    (ud_remove_event_handler ud_init 0).1 = -EINVAL :=
  ⟨c10_valid_id.1 3 (by decide), c10_valid_id.2.2.2 ud_init⟩

/-- C1: evaluation of `ud_remove_event_handler` at a failing input for the
claim.  On the fresh state, slot 3 is in range and empty (fd is the -1
sentinel), yet the call returns 0 (success) instead of the claimed -EINVAL:
the C code validates only the NULL state and handle 0, and clears whatever
index it is given (for ids at or beyond FD_MAX it even writes out of the
array bounds). -/
theorem c1_remove_unchecked :
    (3 : Nat) < FD_MAX ∧
    (ud_init.pollfds[3]?).map Pollfd.fd = some (-1) ∧
    (ud_remove_event_handler ud_init 3).1 = 0 ∧
    (0 : Int) ≠ -EINVAL := by
  refine ⟨by decide, by decide, ?_, by decide⟩
  simp [ud_remove_event_handler, ud_init]

/-- C7: the internal signal dispatcher reloads the configuration exactly on
SIG_HUP and does so before forwarding, always forwards the decoded signal,
requests loop termination exactly on SIG_TERM and does so after forwarding,
and leaves the state (in particular the running flag) unchanged for every
other signal code. -/
theorem c7_signal_dispatch (st : UdState) (b : Nat) :
    ((SigAction.reloadConfig ∈ (main_signal_handler st b).1) ↔ b = SIG_HUP) ∧
    SigAction.forward b ∈ (main_signal_handler st b).1 ∧
    ((SigAction.terminate ∈ (main_signal_handler st b).1) ↔ b = SIG_TERM) ∧
    (main_signal_handler st b).1 =
      (if b = SIG_HUP then [SigAction.reloadConfig] else []) ++ [SigAction.forward b] ++
        (if b = SIG_TERM then [SigAction.terminate] else []) ∧
    (main_signal_handler st b).2 =
      (if b = SIG_TERM then { st with running := false } else st) := by
  by_cases hh : b = SIG_HUP <;> by_cases ht : b = SIG_TERM <;>
    simp_all [main_signal_handler, ud_terminate, SIG_HUP, SIG_TERM]

/-- C2 counterexample: a task scheduled with interval 0 at time 100 is
occupied afterwards, yet the task-run pass of a loop iteration occurring at
the same clock time 100 invokes nothing: `run_tasks` requires the deadline
to be strictly below the current time, so the task does NOT run on the very
first iteration when the clock has not yet advanced. -/
theorem c2_same_second_cex :
    ((ud_schedule_task ud_init 100 0 (some 1) none).2.task_queue[0]?).map TaskDef.task =
      some (some 1) ∧
    (run_tasks (fun _ _ => 0) 100
        (ud_schedule_task ud_init 100 0 (some 1) none).2.task_queue).2 = [] := by
  decide

/-- C2 as amended: a task scheduled with interval 0 gets
`next_deadline = now` (in particular at most the scheduling time), and a
task-run pass at time `t` invokes exactly the occupied slots whose deadline
is strictly below `t` — so the interval-0 task runs on the first iteration
whose clock time is strictly after its scheduling time, not necessarily the
very first iteration. -/
theorem c2_interval_zero (st : UdState) (now : Int) (cb ctx : Option Nat) (i : Nat)
    (hfree : firstIdx (fun td => td.task.isNone) st.task_queue = some i) :
    (∃ td, (ud_schedule_task st now 0 cb ctx).2.task_queue[i]? = some td ∧
       td.task = cb ∧ td.next_deadline ≤ now) ∧
    (∀ f t q j, j ∈ (run_tasks f t q).2 ↔
       ∃ td, q[j]? = some td ∧ td.task.isSome = true ∧ td.next_deadline < t) := by
  constructor
  · obtain ⟨x, hx, _⟩ := firstIdx_mem _ _ _ hfree
    refine ⟨{ task := cb, interval := 0, next_deadline := now + ((0 : Nat) : Int)
            , context := ctx }, ?_, rfl, by simp⟩
    simp only [ud_schedule_task, hfree]
    exact getElem?_set_self st.task_queue i _ x hx
  · intro f t q j
    rw [run_tasks, run_tasks_aux_mem]
    constructor
    · intro hex
      obtain ⟨i', td, hget, hdue, hji⟩ := hex
      have : j = i' := by omega
      subst this
      simp only [dueTask, Bool.and_eq_true, decide_eq_true_eq] at hdue
      exact ⟨td, hget, hdue.1, hdue.2⟩
    · intro hex
      obtain ⟨td, hget, hsome, hlt⟩ := hex
      exact ⟨j, td, hget, by simp [dueTask, hsome, hlt], by omega⟩

/-- C2 witness: the amended statement applied at the fresh state with a
concrete task scheduled at time 50. -/
theorem c2_interval_zero_witness :
    firstIdx (fun td => td.task.isNone) ud_init.task_queue = some 0 ∧
    (∃ td, (ud_schedule_task ud_init 50 0 (some 2) none).2.task_queue[0]? = some td ∧
       td.task = some 2 ∧ td.next_deadline ≤ 50) :=
  ⟨by decide, (c2_interval_zero ud_init 50 (some 2) none 0 (by decide)).1⟩

/-- C4 counterexample: a task callback returning 65536 does not get 65536
stored as its new interval — the C code casts the return value to uint16_t,
so the stored interval is 0 (the deadline, however, uses the untruncated
return value). -/
theorem c4_truncation_cex :
    (run_tasks (fun _ _ => 65536) 1
        [{ task := some 1, interval := 1, next_deadline := 0, context := none }]).1 =
      [{ task := some 1, interval := 0, next_deadline := 65537, context := none }] ∧
    (run_tasks (fun _ _ => 65536) 1
        [{ task := some 1, interval := 1, next_deadline := 0, context := none }]).1.map
        TaskDef.interval ≠ [65536] := by
  decide

/-- C4 as amended: within one task-run pass, a due slot (occupied, deadline
strictly before `now`) is rewritten by `stepTd` and every other slot is
untouched; an invoked callback returning at most 0 frees the slot, one
returning a positive `n` keeps the slot occupied with interval `n mod 2^16`
(the uint16_t truncation of `n`) and deadline `now + n`; and the invoked
indices within a pass are strictly increasing (index order). -/
theorem c4_run_tasks_step (f : Nat → TaskDef → Int) (now : Int) (q : List TaskDef)
    (i : Nat) (td : TaskDef) (h : q[i]? = some td) :
    (dueTask now td = true → (run_tasks f now q).1[i]? = some (stepTd f now i td)) ∧
    (dueTask now td = false → (run_tasks f now q).1[i]? = some td) ∧
    (0 < f i td → (stepTd f now i td).task = td.task ∧
       (stepTd f now i td).interval = (f i td).toNat % 65536 ∧
       (stepTd f now i td).next_deadline = now + f i td ∧
       (stepTd f now i td).context = td.context) ∧
    (f i td ≤ 0 → (stepTd f now i td).task = none) ∧
    List.Pairwise (fun a b => a < b) (run_tasks f now q).2 := by
  have hfst := run_tasks_aux_fst f now q 0 i
  refine ⟨?_, ?_, ?_, ?_, run_tasks_aux_sorted f now q 0⟩
  · intro hdue
    rw [run_tasks, hfst, h]
    simp [hdue]
  · intro hdue
    rw [run_tasks, hfst, h]
    simp [hdue]
  · intro hpos
    have hneg : ¬ f i td ≤ 0 := by omega
    simp [stepTd, hneg]
  · intro hle
    simp [stepTd, hle]

/-- C4 witness: the amended per-slot law applied to a concrete due task
whose callback returns 3. -/
theorem c4_run_tasks_step_witness :
    ([{ task := some 1, interval := 1, next_deadline := 0, context := none }] :
        List TaskDef)[0]? =
      some { task := some 1, interval := 1, next_deadline := 0, context := none } ∧
    (run_tasks (fun _ _ => 3) 5
        [{ task := some 1, interval := 1, next_deadline := 0, context := none }]).1[0]? =
      some (stepTd (fun _ _ => 3) 5 0
        { task := some 1, interval := 1, next_deadline := 0, context := none }) :=
  ⟨by decide,
    (c4_run_tasks_step (fun _ _ => 3) 5
        [{ task := some 1, interval := 1, next_deadline := 0, context := none }] 0
        { task := some 1, interval := 1, next_deadline := 0, context := none }
        (by decide)).1 (by decide)⟩

/-- C9 counterexample: on a non-null state whose task table is full,
`ud_schedule_task` with a NULL task callback returns -ENOMEM, not the
claimed unconditional success 0. -/
theorem c9_full_table_cex :
    (ud_schedule_task fullTaskState 0 0 none none).1 = -ENOMEM ∧
    -ENOMEM ≠ (0 : Int) := by
  decide

/-- C9 as amended: when the task table still has a free slot, scheduling a
NULL task callback returns success 0, leaves the occupancy of the task
table unchanged (the claimed slot stores a NULL callback, so it stays free
by the occupancy criterion), and no slot holding a NULL callback is ever
invoked by a task-run pass; with a full table the call instead fails with
-ENOMEM. -/
theorem c9_null_task (st : UdState) (now : Int) (iv : Nat) (ctx : Option Nat) (i : Nat)
    (hfree : firstIdx (fun td => td.task.isNone) st.task_queue = some i) :
    (ud_schedule_task st now iv none ctx).1 = 0 ∧
    (ud_schedule_task st now iv none ctx).2.task_queue.map TaskDef.task =
      st.task_queue.map TaskDef.task ∧
    (∀ f t j, j ∈ (run_tasks f t (ud_schedule_task st now iv none ctx).2.task_queue).2 →
       ∃ td, (ud_schedule_task st now iv none ctx).2.task_queue[j]? = some td ∧
         td.task.isSome = true) := by
  obtain ⟨x, hx, hxfree⟩ := firstIdx_mem _ _ _ hfree
  have hxnone : x.task = none := Option.isNone_iff_eq_none.mp hxfree
  refine ⟨?_, ?_, ?_⟩
  · simp [ud_schedule_task, hfree]
  · simp only [ud_schedule_task, hfree]
    rw [map_set_list]
    have : (st.task_queue.map TaskDef.task)[i]? = some none := by
      rw [List.getElem?_map, hx]
      simp [hxnone]
    exact set_self_of_getElem? _ _ _ this
  · intro f t j hm
    obtain ⟨i', td, hget, hdue, hji⟩ :=
      (run_tasks_aux_mem f t _ 0 j).mp hm
    have : j = i' := by omega
    subst this
    simp only [dueTask, Bool.and_eq_true, decide_eq_true_eq] at hdue
    exact ⟨td, hget, hdue.1⟩

/-- C9 witness: the amended statement applied at the fresh state, whose
first task slot is free. -/
theorem c9_null_task_witness :
    firstIdx (fun td => td.task.isNone) ud_init.task_queue = some 0 ∧
    (ud_schedule_task ud_init 7 4 none none).1 = 0 ∧
    (ud_schedule_task ud_init 7 4 none none).2.task_queue.map TaskDef.task =
      ud_init.task_queue.map TaskDef.task :=
  ⟨by decide, (c9_null_task ud_init 7 4 none 0 (by decide)).1,
    (c9_null_task ud_init 7 4 none 0 (by decide)).2.1⟩

/-- C3: whenever the first handler slot is occupied (as the main loop
arranges by registering the internal signal-pipe handler there before any
application registration), a successful `ud_add_event_handler` never writes
handle 0 into the caller's event_handler_id output: the ascending free-slot
scan skips the occupied slot 0, so every issued handle is nonzero. -/
theorem c3_handle_zero_reserved (st : UdState) (fd emask : Int) (cb ctx : Option Nat)
    (p0 : Pollfd) (i : Nat)
    (h0 : st.pollfds[0]? = some p0) (hocc : 0 ≤ p0.fd)
    (hid : (ud_add_event_handler st fd emask cb ctx).2.2 = some i) :
    i ≠ 0 := by
  by_cases hcb : cb = none
  · simp [ud_add_event_handler, hcb] at hid
  · cases hl : st.pollfds with
    | nil => rw [hl] at h0; simp at h0
    | cons a t =>
      rw [hl] at h0
      simp at h0
      have hafd : ¬ a.fd < 0 := by
        rw [h0]
        omega
      have ha : decide (a.fd < 0) = false := by
        simpa using hafd
      cases hfi : firstIdx (fun p => decide (p.fd < 0)) st.pollfds with
      | none => simp [ud_add_event_handler, hcb, hfi] at hid
      | some idx =>
        have hii : idx = i := by
          simp [ud_add_event_handler, hcb, hfi] at hid
          exact hid
        rw [hl] at hfi
        have hnz := firstIdx_cons_ne_zero _ a t idx ha hfi
        omega

/-- C3 witness: on the state whose slot 0 holds the reserved signal-pipe
handler, a concrete application registration is issued handle 1, and the
theorem rules out handle 0 for it. -/
theorem c3_handle_zero_reserved_witness :
    (ud_add_event_handler sigPipeState 8 1 (some 1) none).2.2 = some 1 ∧
    (1 : Nat) ≠ 0 :=
  ⟨by decide,
    c3_handle_zero_reserved sigPipeState 8 1 (some 1) none
      { fd := 3, events := 1, revents := 0 } 1 (by decide) (by decide) (by decide)⟩

/-- C5: on every state whose handler table has no free slot, a
registration attempt (with an actual callback) fails with -ENOMEM and
returns the state unchanged, and — independently — on every state whose
task table has no free slot, scheduling fails with -ENOMEM and returns the
state unchanged: neither call evicts, overwrites or modifies any existing
registration.  Each conclusion assumes only its own table full. -/
theorem c5_capacity (st : UdState) (fd emask : Int) (cb ctx : Option Nat)
    (now : Int) (iv : Nat) (tcb tctx : Option Nat)
    (hcb : cb ≠ none) :
    ((∀ p ∈ st.pollfds, ¬ p.fd < 0) →
       ud_add_event_handler st fd emask cb ctx = (-ENOMEM, st, none)) ∧
    ((∀ td ∈ st.task_queue, td.task ≠ none) →
       ud_schedule_task st now iv tcb tctx = (-ENOMEM, st)) := by
  constructor
  · intro hfd
    have h1 : firstIdx (fun p => decide (p.fd < 0)) st.pollfds = none := by
      apply firstIdx_eq_none
      intro x hx
      simpa using hfd x hx
    simp [ud_add_event_handler, hcb, h1]
  · intro htask
    have h2 : firstIdx (fun td => td.task.isNone) st.task_queue = none := by
      apply firstIdx_eq_none
      intro x hx
      cases hxt : x.task with
      | none => exact absurd hxt (htask x hx)
      | some v => simp [hxt]
    simp [ud_schedule_task, h2]

/-- C5 witness: the capacity law exercised at two concrete states, each
with only the relevant table full — the handler conclusion on a state
whose handler table is full while its task table is free, and the task
conclusion on a state whose task table is full while its handler table is
free. -/
theorem c5_capacity_witness :
    (∀ p ∈ fullFdState.pollfds, ¬ p.fd < 0) ∧
    (∀ td ∈ fullTaskState.task_queue, td.task ≠ none) ∧
    ud_add_event_handler fullFdState 4 1 (some 2) none = (-ENOMEM, fullFdState, none) ∧
    ud_schedule_task fullTaskState 11 6 (some 3) none = (-ENOMEM, fullTaskState) :=
  ⟨by decide, by decide,
    (c5_capacity fullFdState 4 1 (some 2) none 11 6 (some 3) none (by decide)).1
      (by decide),
    (c5_capacity fullTaskState 4 1 (some 2) none 11 6 (some 3) none (by decide)).2
      (by decide)⟩

/-- C6: `ud_add_event_handler` fails with -EINVAL exactly when the callback
is NULL, touching nothing; otherwise, whenever slot `i` is the
lowest-index free slot (its fd sentinel is negative and every slot below it
is occupied), the call claims slot `i`, stores the fd, the event mask and
the callback/context pair there, returns success, and hands out `i` as the
handle through the out-pointer. -/
theorem c6_add_first_free (st : UdState) (fd emask : Int) (cb ctx : Option Nat) :
    (cb = none → ud_add_event_handler st fd emask cb ctx = (-EINVAL, st, none)) ∧
    (∀ i p, cb ≠ none → st.pollfds[i]? = some p → p.fd < 0 →
       (∀ j q, j < i → st.pollfds[j]? = some q → ¬ q.fd < 0) →
       ud_add_event_handler st fd emask cb ctx =
         (0,
          { st with
            pollfds := st.pollfds.set i { fd := fd, events := emask, revents := 0 }
          , event_handlers := st.event_handlers.set i { callback := cb, context := ctx } },
          some i)) := by
  constructor
  · intro hcb
    simp [ud_add_event_handler, hcb]
  · intro i p hcb hget hfree hbefore
    have hfi : firstIdx (fun x => decide (x.fd < 0)) st.pollfds = some i := by
      apply firstIdx_eq_some _ _ i p hget
      · simpa using hfree
      · intro j q hj hq
        simpa using hbefore j q hj hq
    simp [ud_add_event_handler, hcb, hfi]

/-- C6 witness: on the state whose slot 0 is taken by the signal-pipe
handler, slot 1 is the lowest free slot; a concrete registration claims it
and is handed handle 1. -/
theorem c6_add_first_free_witness :
    sigPipeState.pollfds[1]? = some { fd := -1, events := 0, revents := 0 } ∧
    ud_add_event_handler sigPipeState 8 1 (some 1) none =
      (0,
       { sigPipeState with
         pollfds := sigPipeState.pollfds.set 1 { fd := 8, events := 1, revents := 0 }
       , event_handlers :=
           sigPipeState.event_handlers.set 1 { callback := some 1, context := none } },
       some 1) :=
  ⟨by decide,
    (c6_add_first_free sigPipeState 8 1 (some 1) none).2 1
      { fd := -1, events := 0, revents := 0 } (by decide) (by decide) (by decide)
      (by
        intro j q hj hq
        have hj0 : j = 0 := by omega
        subst hj0
        have h3 : sigPipeState.pollfds[0]? = some { fd := 3, events := 1, revents := 0 } := by
          decide
        rw [h3] at hq
        simp at hq
        subst hq
        decide)⟩

/-! Helper lemmas for the identity resolver. -/

theorem takeWhile_all (p : α → Bool) (l : List α) (h : ∀ x ∈ l, p x = true) :
    l.takeWhile p = l := by
  induction l with
  | nil => rfl
  | cons a t ih =>
    have ha := h a (by simp)
    simp [List.takeWhile_cons, ha, ih (fun x hx => h x (by simp [hx]))]

theorem dropWhile_all (p : α → Bool) (l : List α) (h : ∀ x ∈ l, p x = true) :
    l.dropWhile p = [] := by
  induction l with
  | nil => rfl
  | cons a t ih =>
    have ha := h a (by simp)
    simp [List.dropWhile_cons, ha, ih (fun x hx => h x (by simp [hx]))]

theorem takeWhile_append_stop (p : α → Bool) (a : List α) (c : α) (b : List α)
    (ha : ∀ x ∈ a, p x = true) (hc : p c = false) :
    (a ++ c :: b).takeWhile p = a := by
  induction a with
  | nil => simp [List.takeWhile_cons, hc]
  | cons y t ih =>
    have hy := ha y (by simp)
    simp [List.takeWhile_cons, hy, ih (fun x hx => ha x (by simp [hx]))]

theorem dropWhile_append_stop (p : α → Bool) (a : List α) (c : α) (b : List α)
    (ha : ∀ x ∈ a, p x = true) (hc : p c = false) :
    (a ++ c :: b).dropWhile p = c :: b := by
  induction a with
  | nil => simp [List.dropWhile_cons, hc]
  | cons y t ih =>
    have hy := ha y (by simp)
    simp [List.dropWhile_cons, hy, ih (fun x hx => ha x (by simp [hx]))]

theorem splitLastColon_with_group (u g : List Char) (hg : ':' ∉ g) :
    splitLastColon (u ++ ':' :: g) = (u, some g) := by
  have hrev : (u ++ ':' :: g).reverse = g.reverse ++ ':' :: u.reverse := by
    simp
  have hall : ∀ x ∈ g.reverse, notColon x = true := by
    intro x hx
    have hxg : x ∈ g := List.mem_reverse.mp hx
    have hxne : x ≠ ':' := fun hh => hg (hh ▸ hxg)
    simp [notColon, hxne]
  have hcol : notColon ':' = false := by simp [notColon]
  simp only [splitLastColon, hrev, takeWhile_append_stop _ _ _ _ hall hcol,
    dropWhile_append_stop _ _ _ _ hall hcol]
  simp

theorem splitLastColon_no_colon (e : List Char) (he : ':' ∉ e) :
    splitLastColon e = (e, none) := by
  have hall : ∀ x ∈ e.reverse, notColon x = true := by
    intro x hx
    have hxg : x ∈ e := List.mem_reverse.mp hx
    have hxne : x ≠ ':' := fun hh => he (hh ▸ hxg)
    simp [notColon, hxne]
  simp only [splitLastColon, dropWhile_all _ _ hall]

theorem isDigit_not_space (c : Char) (h : isDigitChar c = true) :
    isSpaceChar c = false := by
  cases hs : isSpaceChar c with
  | false => rfl
  | true =>
    exfalso
    simp only [isSpaceChar, Bool.or_eq_true, decide_eq_true_eq] at hs
    simp only [isDigitChar, Bool.and_eq_true, decide_eq_true_eq] at h
    rcases hs with ((((hc | hc) | hc) | hc) | hc) | hc <;> subst hc <;> revert h <;> decide

theorem isDigit_ne_sign (c : Char) (h : isDigitChar c = true) :
    c ≠ '-' ∧ c ≠ '+' := by
  constructor <;> rintro rfl <;> revert h <;> decide

theorem strtol10_digits (u : List Char) (hne : u ≠ [])
    (hd : ∀ c ∈ u, isDigitChar c = true) (hbound : (natOfDigits u : Int) ≤ longMax) :
    strtol10 u = ((natOfDigits u : Int), []) := by
  cases u with
  | nil => exact absurd rfl hne
  | cons c rest =>
    have hc : isDigitChar c = true := hd c (by simp)
    have hsp : isSpaceChar c = false := isDigit_not_space c hc
    have hdrop : (c :: rest).dropWhile isSpaceChar = c :: rest := by
      simp [List.dropWhile_cons, hsp]
    have hsign := isDigit_ne_sign c hc
    have htake : (c :: rest).takeWhile isDigitChar = c :: rest := takeWhile_all _ _ hd
    have hdropd : (c :: rest).dropWhile isDigitChar = [] := dropWhile_all _ _ hd
    have h1 : ¬ ((natOfDigits (c :: rest) : Int) < longMin) := by
      have hnn : (0 : Int) ≤ (natOfDigits (c :: rest) : Int) := Int.natCast_nonneg _
      simp only [longMin]
      omega
    have h2 : ¬ (longMax < (natOfDigits (c :: rest) : Int)) := not_lt.mpr hbound
    simp [strtol10, hdrop, hsign.1, hsign.2, htake, hdropd, h1, h2]

theorem strtonum_digits (u : List Char) (hne : u ≠ [])
    (hd : ∀ c ∈ u, isDigitChar c = true) (hbound : (natOfDigits u : Int) ≤ longMax) :
    strtonum u = ((natOfDigits u : Int)) := by
  simp [strtonum, strtol10_digits u hne hd hbound]

/-- C8: identity resolution.  An absent or empty entry resolves the
"nobody" account and fails exactly when that account is missing; a
non-empty entry is cut at its LAST colon into user and optional group
parts; a part that consists entirely of decimal digits yields its numeric
value from strtonum (hence is resolved numerically); the user part is
resolved by uid when strtonum is non-negative and by name otherwise,
failing with the no-such-user error when unresolved; the gid defaults to
the resolved user's primary group and a present group part, resolved the
same numeric-first way (failing with the no-such-group error when
unresolved), overrides it; in particular "0:0" yields uid 0, gid 0. -/
theorem c8_parse_identity (env : SysEnv) :
    (∀ p, getpwnam env nobodyName = some p →
       ud_parse_uid env none = Except.ok (p.pw_uid, p.pw_gid) ∧
       ud_parse_uid env (some []) = Except.ok (p.pw_uid, p.pw_gid)) ∧
    (getpwnam env nobodyName = none →
       ud_parse_uid env none = Except.error ParseUidErr.noNobody ∧
       ud_parse_uid env (some []) = Except.error ParseUidErr.noNobody) ∧
    (∀ u g, ':' ∉ g → splitLastColon (u ++ ':' :: g) = (u, some g)) ∧
    (∀ e, ':' ∉ e → splitLastColon e = (e, none)) ∧
    (∀ u, u ≠ [] → (∀ c ∈ u, isDigitChar c = true) → (natOfDigits u : Int) ≤ longMax →
       strtonum u = ((natOfDigits u : Int)) ∧ 0 ≤ strtonum u) ∧
    (∀ e u, e ≠ [] → splitLastColon e = (u, none) →
       ud_parse_uid env (some e) =
         (match (if 0 ≤ strtonum u then getpwuid env ((strtonum u).toNat % 4294967296)
                 else getpwnam env u) with
          | none => Except.error ParseUidErr.noSuchUser
          | some p => Except.ok (p.pw_uid, p.pw_gid))) ∧
    (∀ e u g, e ≠ [] → splitLastColon e = (u, some g) →
       ud_parse_uid env (some e) =
         (match (if 0 ≤ strtonum u then getpwuid env ((strtonum u).toNat % 4294967296)
                 else getpwnam env u) with
          | none => Except.error ParseUidErr.noSuchUser
          | some p =>
            match (if 0 ≤ strtonum g then getgrgid env ((strtonum g).toNat % 4294967296)
                   else getgrnam env g) with
            | none => Except.error ParseUidErr.noSuchGroup
            | some gid => Except.ok (p.pw_uid, gid))) ∧
    (∀ p, getpwuid env 0 = some p → p.pw_uid = 0 → getgrgid env 0 = some 0 →
       ud_parse_uid env (some ['0', ':', '0']) = Except.ok (0, 0)) := by
  refine ⟨?_, ?_, ?_, ?_, ?_, ?_, ?_, ?_⟩
  · intro p hp
    constructor <;> simp [ud_parse_uid, resolveNobody, hp]
  · intro hp
    constructor <;> simp [ud_parse_uid, resolveNobody, hp]
  · intro u g hg
    exact splitLastColon_with_group u g hg
  · intro e he
    exact splitLastColon_no_colon e he
  · intro u hne hd hb
    refine ⟨strtonum_digits u hne hd hb, ?_⟩
    rw [strtonum_digits u hne hd hb]
    exact Int.natCast_nonneg _
  · intro e u hne hsplit
    have hE : e.isEmpty = false := by
      cases e with
      | nil => exact absurd rfl hne
      | cons a t => rfl
    simp [ud_parse_uid, hE, hsplit]
  · intro e u g hne hsplit
    have hE : e.isEmpty = false := by
      cases e with
      | nil => exact absurd rfl hne
      | cons a t => rfl
    simp [ud_parse_uid, hE, hsplit]
  · intro p hp hp0 hg
    have hsplit : splitLastColon ['0', ':', '0'] = (['0'], some ['0']) := by decide
    have hnum : strtonum ['0'] = 0 := by decide
    simp [ud_parse_uid, hsplit, hnum, hp, hg, hp0]

/-- C8 witness: the concrete environment with root (uid 0) and gid 0, on
which "0:0" resolves to uid 0, gid 0, and the empty entry resolves to the
"nobody" account's ids. -/
theorem c8_parse_identity_witness :
    getpwuid envEx 0 = some { pw_uid := 0, pw_gid := 0 } ∧
    getgrgid envEx 0 = some 0 ∧
    ud_parse_uid envEx (some ['0', ':', '0']) = Except.ok (0, 0) ∧
    ud_parse_uid envEx (some []) = Except.ok (65534, 65534) :=
  ⟨by decide, by decide,
    (c8_parse_identity envEx).2.2.2.2.2.2.2 { pw_uid := 0, pw_gid := 0 }
      (by decide) (by decide) (by decide),
    ((c8_parse_identity envEx).1 { pw_uid := 65534, pw_gid := 65534 } (by decide)).2⟩

end Udaemon
